import Mathlib

/-!
Verification of the smart-copytrading analytical core.

This file gives a shallow embedding, over exact rational arithmetic, of the
pure analytical logic of the backend services:

* `selection_service.py`  — hard filters and composite scoring,
* `metrics_service.py`    — trader performance profiles from trade records,
* `backtest_service.py`   — drawdown computation, in-memory strategy engine
  clone, and the chronological leg replay with the 30% drawdown halt,
* `strategy_engine.py`    — the live signal-aggregation engine (its module
  level buffers are modelled as one process-wide state record),
* `execution_service.py`  — signal execution state transitions,

together with theorems settling the frozen claims C1 .. C10 about them.

Modelling conventions: Python floats are modelled as `ℚ`; `datetime` values
are modelled as rational timestamps in seconds (calendar dates, used only
for distinct-day counting, as integers); Python dicts keyed by strings are
modelled as total functions with the dict's default as value on absent
keys; Python `math.sqrt` (used only for `volatility` and the sharpe
denominator) has no exact rational counterpart, so the embedding carries
the radicand (`volatility_sq`, `sharpe_var`): the float value is its
square root, and in particular it is zero exactly when the modelled field
is zero.  Raising an exception is modelled by returning the untouched
state together with a `some`-error, mirroring the fact that in the source
every raise happens before any state mutation.
-/

namespace SmartCopy

/-! ### Selection / scoring engine (`selection_service.py`) -/

/-- Trader performance profile, `TraderMetricsResult` of `schemas/metrics.py`
as consumed by `evaluate_trader_profile`.  `volatility_sq` models the square
of the float field `volatility` (see the header comment). -/
structure TraderMetricsResult where
  pnl : ℚ
  win_rate : ℚ
  volatility_sq : ℚ
  max_drawdown : ℚ
  num_trades : ℕ
  active_days : ℕ
  trades_per_day : ℚ
  avg_win_r : ℚ
  avg_loss_r : ℚ
  payoff_ratio : ℚ
  expectancy : ℚ
  min_trade_r : ℚ
  max_drawdown_pct : ℚ
  deriving Repr, DecidableEq

/-- `SmartSelectionConfig` of `selection_service.py`. -/
structure SmartSelectionConfig where
  window_days : ℤ
  min_trades : ℕ
  min_active_days : ℕ
  min_trades_per_day : ℚ
  min_expectancy : ℚ
  min_payoff_ratio : ℚ
  max_drawdown_pct : ℚ
  min_score : ℚ
  max_single_loss_r : ℚ
  target_expectancy : ℚ
  target_payoff : ℚ
  target_trades_per_day : ℚ
  deriving Repr, DecidableEq

/-- The default configuration values of `SmartSelectionConfig`. -/
def DEFAULT_CONFIG : SmartSelectionConfig :=
  { window_days := 30
    min_trades := 200
    min_active_days := 5
    min_trades_per_day := 5
    min_expectancy := 1/100
    min_payoff_ratio := 3/2
    max_drawdown_pct := 3/10
    min_score := 7/10
    max_single_loss_r := 2
    target_expectancy := 1/50
    target_payoff := 5/2
    target_trades_per_day := 10 }

/-- `TraderSelectionResult` of `selection_service.py`. -/
structure TraderSelectionResult where
  eligible : Bool
  score : ℚ
  deriving Repr, DecidableEq

/-- `clamp` of `selection_service.py`. -/
def clamp (value minimum maximum : ℚ) : ℚ :=
  if value < minimum then minimum
  else if value > maximum then maximum
  else value

/-- The weighted score computed in the tail of `evaluate_trader_profile`
(`selection_service.py`, lines 116-150). -/
def selection_score (metrics : TraderMetricsResult) (config : SmartSelectionConfig) : ℚ :=
  let e_raw := if config.target_expectancy > 0 then metrics.expectancy / config.target_expectancy else 0
  let e_component := clamp e_raw 0 1
  let p_raw := if config.target_payoff > 0 then metrics.payoff_ratio / config.target_payoff else 0
  let p_component := clamp p_raw 0 1
  let f_raw := if config.target_trades_per_day > 0 then metrics.trades_per_day / config.target_trades_per_day else 0
  let f_component := clamp f_raw 0 1
  let d_raw := if config.max_drawdown_pct > 0 then 1 - metrics.max_drawdown_pct / config.max_drawdown_pct else 1
  let d_component := clamp d_raw 0 1
  2/5 * e_component + 3/10 * p_component + 1/5 * f_component + 1/10 * d_component

/-- `evaluate_trader_profile` of `selection_service.py`: the seven hard
filters in source order, then the weighted score. -/
def evaluate_trader_profile (metrics : TraderMetricsResult) (config : SmartSelectionConfig) :
    TraderSelectionResult :=
  if metrics.num_trades < config.min_trades then ⟨false, 0⟩
  else if metrics.active_days < config.min_active_days then ⟨false, 0⟩
  else if metrics.payoff_ratio < config.min_payoff_ratio then ⟨false, 0⟩
  else if metrics.expectancy ≤ config.min_expectancy then ⟨false, 0⟩
  else if metrics.max_drawdown_pct > config.max_drawdown_pct then ⟨false, 0⟩
  else if metrics.trades_per_day < config.min_trades_per_day then ⟨false, 0⟩
  else if metrics.min_trade_r < -config.max_single_loss_r then ⟨false, 0⟩
  else ⟨true, selection_score metrics config⟩

lemma clamp_nonneg (x : ℚ) : 0 ≤ clamp x 0 1 := by
  unfold clamp; split_ifs with h1 h2
  · norm_num
  · norm_num
  · exact le_of_not_lt h1

lemma clamp_le_one (x : ℚ) : clamp x 0 1 ≤ 1 := by
  unfold clamp; split_ifs with h1 h2
  · norm_num
  · norm_num
  · exact le_of_not_lt h2

lemma clamp_mono {x y : ℚ} (h : x ≤ y) : clamp x 0 1 ≤ clamp y 0 1 := by
  unfold clamp
  split_ifs with h1 h2 h3 h4 h5 h6 h7
  all_goals push_neg at *
  all_goals linarith

lemma evaluate_eligible_eq {metrics : TraderMetricsResult} {config : SmartSelectionConfig}
    (h : (evaluate_trader_profile metrics config).eligible = true) :
    evaluate_trader_profile metrics config = ⟨true, selection_score metrics config⟩ := by
  unfold evaluate_trader_profile at h ⊢
  split_ifs at h ⊢
  all_goals simp_all

lemma selection_score_nonneg (metrics : TraderMetricsResult) (config : SmartSelectionConfig) :
    0 ≤ selection_score metrics config := by
  unfold selection_score
  have h1 := clamp_nonneg (if config.target_expectancy > 0 then metrics.expectancy / config.target_expectancy else 0)
  have h2 := clamp_nonneg (if config.target_payoff > 0 then metrics.payoff_ratio / config.target_payoff else 0)
  have h3 := clamp_nonneg (if config.target_trades_per_day > 0 then metrics.trades_per_day / config.target_trades_per_day else 0)
  have h4 := clamp_nonneg (if config.max_drawdown_pct > 0 then 1 - metrics.max_drawdown_pct / config.max_drawdown_pct else 1)
  dsimp only
  linarith

lemma selection_score_le_one (metrics : TraderMetricsResult) (config : SmartSelectionConfig) :
    selection_score metrics config ≤ 1 := by
  unfold selection_score
  have h1 := clamp_le_one (if config.target_expectancy > 0 then metrics.expectancy / config.target_expectancy else 0)
  have h2 := clamp_le_one (if config.target_payoff > 0 then metrics.payoff_ratio / config.target_payoff else 0)
  have h3 := clamp_le_one (if config.target_trades_per_day > 0 then metrics.trades_per_day / config.target_trades_per_day else 0)
  have h4 := clamp_le_one (if config.max_drawdown_pct > 0 then 1 - metrics.max_drawdown_pct / config.max_drawdown_pct else 1)
  dsimp only
  linarith

/-- C6: for every profile and configuration, `evaluate_trader_profile`
returns score 0 whenever it returns `eligible = false`, and a score in the
closed interval [0, 1] whenever it returns `eligible = true` (each scoring
component is clamped to [0,1] and the weights 0.4, 0.3, 0.2, 0.1 sum to 1). -/
theorem C6_score_bounds (metrics : TraderMetricsResult) (config : SmartSelectionConfig) :
    ((evaluate_trader_profile metrics config).eligible = false →
      (evaluate_trader_profile metrics config).score = 0) ∧
    ((evaluate_trader_profile metrics config).eligible = true →
      0 ≤ (evaluate_trader_profile metrics config).score ∧
      (evaluate_trader_profile metrics config).score ≤ 1) := by
  constructor
  · intro h
    unfold evaluate_trader_profile at h ⊢
    split_ifs at h ⊢ <;> simp_all
  · intro h
    rw [evaluate_eligible_eq h]
    exact ⟨selection_score_nonneg metrics config, selection_score_le_one metrics config⟩

/-- C6 witness: a concrete eligible profile with score in [0,1] and a
concrete ineligible profile with score 0. -/
theorem C6_score_bounds_witness :
    ((evaluate_trader_profile
        ⟨100, 6/10, 0, 1/10, 500, 10, 12, 3/100, 1/100, 3, 3/100, -1/10, 1/10⟩
        DEFAULT_CONFIG).eligible = true ∧
      0 ≤ (evaluate_trader_profile
        ⟨100, 6/10, 0, 1/10, 500, 10, 12, 3/100, 1/100, 3, 3/100, -1/10, 1/10⟩
        DEFAULT_CONFIG).score ∧
      (evaluate_trader_profile
        ⟨100, 6/10, 0, 1/10, 500, 10, 12, 3/100, 1/100, 3, 3/100, -1/10, 1/10⟩
        DEFAULT_CONFIG).score ≤ 1) ∧
    ((evaluate_trader_profile
        ⟨0, 0, 0, 0, 3, 10, 12, 3/100, 1/100, 3, 3/100, -1/10, 1/10⟩
        DEFAULT_CONFIG).eligible = false ∧
      (evaluate_trader_profile
        ⟨0, 0, 0, 0, 3, 10, 12, 3/100, 1/100, 3, 3/100, -1/10, 1/10⟩
        DEFAULT_CONFIG).score = 0) := by
  have h1 : (evaluate_trader_profile
      ⟨100, 6/10, 0, 1/10, 500, 10, 12, 3/100, 1/100, 3, 3/100, -1/10, 1/10⟩
      DEFAULT_CONFIG).eligible = true := by
    norm_num [evaluate_trader_profile, DEFAULT_CONFIG]
  have h2 : (evaluate_trader_profile
      ⟨0, 0, 0, 0, 3, 10, 12, 3/100, 1/100, 3, 3/100, -1/10, 1/10⟩
      DEFAULT_CONFIG).eligible = false := by
    norm_num [evaluate_trader_profile, DEFAULT_CONFIG]
  exact ⟨⟨h1, (C6_score_bounds _ _).2 h1⟩, ⟨h2, (C6_score_bounds _ _).1 h2⟩⟩

/-- C7: scoring is monotonic.  If two profiles both pass all hard filters
under one configuration, and the second improves in the direction of any
of the four scored components (lower max drawdown pct, higher payoff
ratio, higher expectancy, higher trade frequency) while being no worse in
the others, then the second profile's score is at least the first's.  In
particular this covers improving exactly one component with the rest held
fixed. -/
theorem C7_selection_monotonic (a b : TraderMetricsResult) (config : SmartSelectionConfig)
    (ha : (evaluate_trader_profile a config).eligible = true)
    (hb : (evaluate_trader_profile b config).eligible = true)
    (hdd : b.max_drawdown_pct ≤ a.max_drawdown_pct)
    (hpayoff : a.payoff_ratio ≤ b.payoff_ratio)
    (hexp : a.expectancy ≤ b.expectancy)
    (hfreq : a.trades_per_day ≤ b.trades_per_day) :
    (evaluate_trader_profile a config).score ≤ (evaluate_trader_profile b config).score := by
  rw [evaluate_eligible_eq ha, evaluate_eligible_eq hb]
  show selection_score a config ≤ selection_score b config
  unfold selection_score
  have he : clamp (if config.target_expectancy > 0 then a.expectancy / config.target_expectancy else 0) 0 1 ≤
      clamp (if config.target_expectancy > 0 then b.expectancy / config.target_expectancy else 0) 0 1 := by
    apply clamp_mono; split_ifs with h
    · exact div_le_div_of_nonneg_right hexp h.le
    · exact le_refl 0
  have hp : clamp (if config.target_payoff > 0 then a.payoff_ratio / config.target_payoff else 0) 0 1 ≤
      clamp (if config.target_payoff > 0 then b.payoff_ratio / config.target_payoff else 0) 0 1 := by
    apply clamp_mono; split_ifs with h
    · exact div_le_div_of_nonneg_right hpayoff h.le
    · exact le_refl 0
  have hf : clamp (if config.target_trades_per_day > 0 then a.trades_per_day / config.target_trades_per_day else 0) 0 1 ≤
      clamp (if config.target_trades_per_day > 0 then b.trades_per_day / config.target_trades_per_day else 0) 0 1 := by
    apply clamp_mono; split_ifs with h
    · exact div_le_div_of_nonneg_right hfreq h.le
    · exact le_refl 0
  have hd : clamp (if config.max_drawdown_pct > 0 then 1 - a.max_drawdown_pct / config.max_drawdown_pct else 1) 0 1 ≤
      clamp (if config.max_drawdown_pct > 0 then 1 - b.max_drawdown_pct / config.max_drawdown_pct else 1) 0 1 := by
    apply clamp_mono; split_ifs with h
    · have := div_le_div_of_nonneg_right hdd h.le
      linarith
    · exact le_refl 1
  dsimp only
  linarith

/-- C7 witness: the monotonicity theorem applied to two concrete profiles
that differ only in expectancy. -/
theorem C7_selection_monotonic_witness :
    ((evaluate_trader_profile
        ⟨100, 6/10, 0, 1/10, 500, 10, 12, 3/100, 1/100, 3, 3/100, -1/10, 1/10⟩
        DEFAULT_CONFIG).eligible = true ∧
     (evaluate_trader_profile
        ⟨100, 6/10, 0, 1/10, 500, 10, 12, 3/100, 1/100, 3, 4/100, -1/10, 1/10⟩
        DEFAULT_CONFIG).eligible = true) ∧
    (evaluate_trader_profile
        ⟨100, 6/10, 0, 1/10, 500, 10, 12, 3/100, 1/100, 3, 3/100, -1/10, 1/10⟩
        DEFAULT_CONFIG).score ≤
      (evaluate_trader_profile
        ⟨100, 6/10, 0, 1/10, 500, 10, 12, 3/100, 1/100, 3, 4/100, -1/10, 1/10⟩
        DEFAULT_CONFIG).score := by
  have h1 : (evaluate_trader_profile
      ⟨100, 6/10, 0, 1/10, 500, 10, 12, 3/100, 1/100, 3, 3/100, -1/10, 1/10⟩
      DEFAULT_CONFIG).eligible = true := by
    norm_num [evaluate_trader_profile, DEFAULT_CONFIG]
  have h2 : (evaluate_trader_profile
      ⟨100, 6/10, 0, 1/10, 500, 10, 12, 3/100, 1/100, 3, 4/100, -1/10, 1/10⟩
      DEFAULT_CONFIG).eligible = true := by
    norm_num [evaluate_trader_profile, DEFAULT_CONFIG]
  exact ⟨⟨h1, h2⟩, C7_selection_monotonic _ _ _ h1 h2 (by norm_num) (by norm_num)
    (by norm_num) (by norm_num)⟩

/-! ### Metrics engine (`metrics_service.py`) -/

/-- One trade record as read by `compute_metrics_for_trader`: only the
fields that function consumes.  `opened_date` / `closed_date` model the
calendar dates `t.opened_at.date()` / `t.closed_at.date()` used for the
distinct-day count; `realized_pnl` is `None` for open trades. -/
structure Trade where
  opened_date : Option ℤ
  closed_date : Option ℤ
  realized_pnl : Option ℚ
  entry_price : ℚ
  size : ℚ
  deriving Repr, DecidableEq

/-- The R-multiple of one trade, when it is valid for metrics: the source
skips trades with `realized_pnl is None` or with zero notional
(`entry_price * size == 0`).  R = realized_pnl / (entry_price * size). -/
def trade_r (t : Trade) : Option ℚ :=
  match t.realized_pnl with
  | none => none
  | some p => if t.entry_price * t.size = 0 then none else some (p / (t.entry_price * t.size))

/-- The chronological list of R-multiples of the valid trades (`rs` in the
source loop). -/
def valid_rs (trades : List Trade) : List ℚ :=
  trades.filterMap trade_r

/-- The realized PnL values accumulated into `total_pnl` (only valid
trades contribute, mirroring the two `continue` guards). -/
def valid_pnls (trades : List Trade) : List ℚ :=
  trades.filterMap (fun t =>
    match t.realized_pnl with
    | none => none
    | some p => if t.entry_price * t.size = 0 then none else some p)

/-- The set of distinct calendar dates touched by open or close
timestamps (`active_dates` in the source loop). -/
def active_dates (trades : List Trade) : Finset ℤ :=
  trades.foldl (fun s t =>
    let s1 := match t.opened_date with
      | some d => insert d s
      | none => s
    match t.closed_date with
    | some d => insert d s1
    | none => s1) ∅

/-- The drawdown walk of `compute_metrics_for_trader` (lines 217-234):
a synthetic compounding equity curve starting at 1.0, multiplying by
(1 + R) per trade; returns (max_drawdown_abs, max_drawdown_pct), the pct
being relative to the running peak. -/
def metrics_drawdown_loop : ℚ → ℚ → ℚ → ℚ → List ℚ → ℚ × ℚ
  | _, _, mdd_abs, mdd_pct, [] => (mdd_abs, mdd_pct)
  | equity, peak, mdd_abs, mdd_pct, r :: rest =>
    let equity1 := equity * (1 + r)
    let peak1 := if equity1 > peak then equity1 else peak
    let dd_abs := peak1 - equity1
    let dd_pct := if peak1 > 0 then dd_abs / peak1 else 0
    metrics_drawdown_loop equity1 peak1
      (if dd_abs > mdd_abs then dd_abs else mdd_abs)
      (if dd_pct > mdd_pct then dd_pct else mdd_pct) rest

/-- The all-zero profile produced for traders without usable data. -/
def zero_profile : TraderMetricsResult :=
  { pnl := 0, win_rate := 0, volatility_sq := 0, max_drawdown := 0, num_trades := 0,
    active_days := 0, trades_per_day := 0, avg_win_r := 0, avg_loss_r := 0,
    payoff_ratio := 0, expectancy := 0, min_trade_r := 0, max_drawdown_pct := 0 }

/-- The pure metrics computation of `compute_metrics_for_trader`
(`metrics_service.py`): input is the window's trade list, already sorted
by open time as delivered by the query.  Persistence of the resulting
row and the selection call are collaborator effects outside this
function's analytics and are not part of the returned profile. -/
def compute_metrics_for_trader (trades : List Trade) : TraderMetricsResult :=
  if trades = [] then zero_profile
  else
    let rs := valid_rs trades
    let num_trades := rs.length
    let active_days := (active_dates trades).card
    if num_trades = 0 then { zero_profile with active_days := active_days }
    else
      let win_rs := rs.filter (fun r => decide (r > 0))
      let loss_rs := rs.filter (fun r => decide (r < 0))
      let count_directional := win_rs.length + loss_rs.length
      let win_rate := if count_directional > 0 then (win_rs.length : ℚ) / (count_directional : ℚ) else 0
      let avg_win_r := if win_rs ≠ [] then win_rs.sum / (win_rs.length : ℚ) else 0
      let avg_loss_r := if loss_rs ≠ [] then (loss_rs.map (fun x => |x|)).sum / (loss_rs.length : ℚ) else 0
      let payoff_ratio := if avg_loss_r > 0 then avg_win_r / avg_loss_r
        else if avg_win_r = 0 then 0 else 10
      let mean_r := rs.sum / (num_trades : ℚ)
      let expectancy := mean_r
      let min_trade_r := match rs with
        | [] => 0
        | x :: xs => xs.foldl min x
      let volatility_sq := if num_trades > 1 then ((rs.map (fun r => (r - mean_r) ^ 2)).sum : ℚ) / (num_trades : ℚ) else 0
      let dd := metrics_drawdown_loop 1 1 0 0 rs
      let trades_per_day := if active_days > 0 then (num_trades : ℚ) / (active_days : ℚ) else 0
      { pnl := (valid_pnls trades).sum
        win_rate := win_rate
        volatility_sq := volatility_sq
        max_drawdown := dd.1
        num_trades := num_trades
        active_days := active_days
        trades_per_day := trades_per_day
        avg_win_r := avg_win_r
        avg_loss_r := avg_loss_r
        payoff_ratio := payoff_ratio
        expectancy := expectancy
        min_trade_r := min_trade_r
        max_drawdown_pct := dd.2 }

/-- C8: the metrics computation is total and degrades gracefully: with no
trades in the window it returns the all-zero profile; with trades but no
valid-R trade (missing realized PnL or zero notional) every derived
metric is zero while `active_days` still reflects the raw distinct-day
coverage of the trades present; and in general the R-multiple aggregates
count exactly the valid trades, so invalid trades are excluded rather
than raising. -/
theorem C8_metrics_total_and_degrades :
    (compute_metrics_for_trader [] = zero_profile) ∧
    (∀ trades : List Trade, valid_rs trades = [] →
      compute_metrics_for_trader trades =
        { zero_profile with active_days := (active_dates trades).card }) ∧
    (∀ trades : List Trade,
      (compute_metrics_for_trader trades).num_trades = (valid_rs trades).length) := by
  refine ⟨by simp [compute_metrics_for_trader], ?_, ?_⟩
  · intro trades h
    unfold compute_metrics_for_trader
    rcases eq_or_ne trades [] with rfl | hne
    · simp [active_dates, zero_profile]
    · simp only [if_neg hne, h]
      simp
  · intro trades
    unfold compute_metrics_for_trader
    rcases eq_or_ne trades [] with rfl | hne
    · simp [valid_rs, zero_profile]
    · simp only [if_neg hne]
      rcases eq_or_ne (valid_rs trades).length 0 with hz | hnz
      · simp [hz, zero_profile]
      · simp [hnz]

/-- C8 witness: a window holding a single open trade (no realized PnL)
and a single zero-notional trade yields the all-zero profile except for
the two active calendar days, with both trades excluded from the
R-multiple aggregates. -/
theorem C8_metrics_total_and_degrades_witness :
    valid_rs [⟨some 19000, none, none, 100, 1⟩, ⟨some 19001, some 19001, some 5, 100, 0⟩] = [] ∧
    compute_metrics_for_trader
        [⟨some 19000, none, none, 100, 1⟩, ⟨some 19001, some 19001, some 5, 100, 0⟩] =
      { zero_profile with active_days := 2 } ∧
    (compute_metrics_for_trader
        [⟨some 19000, none, none, 100, 1⟩, ⟨some 19001, some 19001, some 5, 100, 0⟩]).num_trades = 0 := by
  have hv : valid_rs [(⟨some 19000, none, none, 100, 1⟩ : Trade), ⟨some 19001, some 19001, some 5, 100, 0⟩] = [] := by
    norm_num [valid_rs, trade_r, List.filterMap]
  refine ⟨hv, ?_, ?_⟩
  · have := (C8_metrics_total_and_degrades.2.1) _ hv
    rw [this]
    have : (active_dates [(⟨some 19000, none, none, 100, 1⟩ : Trade), ⟨some 19001, some 19001, some 5, 100, 0⟩]).card = 2 := by
      norm_num [active_dates]
    rw [this]
  · rw [C8_metrics_total_and_degrades.2.2 _, hv]
    rfl

/-! ### Backtest drawdown summary (`backtest_service.py`, `_compute_drawdown_from_equity`) -/

/-- The walk over the equity curve inside `_compute_drawdown_from_equity`
(`backtest_service.py`, lines 115-123): running peak and running maximal
absolute decline from it. -/
def compute_drawdown_loop : ℚ → ℚ → List ℚ → ℚ
  | _, mdd, [] => mdd
  | peak, mdd, e :: rest =>
    let peak1 := if e > peak then e else peak
    let dd := peak1 - e
    compute_drawdown_loop peak1 (if dd > mdd then dd else mdd) rest

/-- `_compute_drawdown_from_equity` of `backtest_service.py`: returns
(max_dd_abs, max_dd_pct).  Note the source divides the absolute drawdown
by `initial_equity`, not by the running peak. -/
def compute_drawdown_from_equity (equity_curve : List ℚ) (initial_equity : ℚ) : ℚ × ℚ :=
  let max_dd_abs := compute_drawdown_loop initial_equity 0 equity_curve
  (max_dd_abs, if initial_equity > 0 then max_dd_abs / initial_equity else 0)

/-- Modelled from the spec wording of C1: the running peak equity at index
`i` of the curve (the maximum of the initial equity and the curve values
up to and including index `i`). -/
def spec_running_peak (initial : ℚ) (curve : List ℚ) (i : ℕ) : ℚ :=
  (curve.take (i + 1)).foldl max initial

/-- Modelled from the spec wording of C1: the maximum peak-to-trough
decline of the curve, i.e. the largest difference between the running
peak and the current equity (0 for an empty curve). -/
def spec_max_drawdown_abs (initial : ℚ) (curve : List ℚ) : ℚ :=
  ((List.range curve.length).map
    (fun i => spec_running_peak initial curve i - curve.getD i 0)).foldl max 0

lemma if_gt_eq_max (a b : ℚ) : (if b > a then b else a) = max a b := by
  split_ifs with h
  · exact (max_eq_right h.le).symm
  · exact (max_eq_left (le_of_not_lt h)).symm

lemma compute_drawdown_loop_eq (curve : List ℚ) :
    ∀ peak mdd : ℚ,
      compute_drawdown_loop peak mdd curve =
        ((List.range curve.length).map
          (fun i => (curve.take (i + 1)).foldl max peak - curve.getD i 0)).foldl max mdd := by
  induction curve with
  | nil => intro peak mdd; simp [compute_drawdown_loop]
  | cons e rest ih =>
    intro peak mdd
    rw [compute_drawdown_loop]
    simp only [if_gt_eq_max]
    rw [ih (max peak e) (max mdd (max peak e - e))]
    rw [List.length_cons, List.range_succ_eq_map, List.map_cons, List.map_map, List.foldl_cons]
    rfl

/-- C1 counterexample: on the spec's own scenario — equity curve
[10000, 10500, 9000, 9500] with initial equity 10000 — the code computes
max_drawdown_abs = 1500 but max_drawdown_pct = 1500/10000 = 0.15, not the
claimed 1500/10500: the percentage is taken against the initial equity,
not the running peak. -/
theorem C1_drawdown_pct_counterexample :
    (compute_drawdown_from_equity [10000, 10500, 9000, 9500] 10000).1 = 1500 ∧
    (compute_drawdown_from_equity [10000, 10500, 9000, 9500] 10000).2 = 3/20 ∧
    (3/20 : ℚ) ≠ 1500/10500 := by
  refine ⟨?_, ?_, by norm_num⟩ <;>
    norm_num [compute_drawdown_from_equity, compute_drawdown_loop]

/-- C1 (amended): for every equity curve, the reported max_drawdown_abs is
the maximum peak-to-trough decline relative to the running peak equity,
and the reported max_drawdown_pct is that decline divided by the initial
equity (0 when the initial equity is not positive); in the spec's scenario
this gives 1500 and 1500/10000 = 0.15. -/
theorem C1_drawdown_amended (curve : List ℚ) (initial : ℚ) :
    (compute_drawdown_from_equity curve initial).1 = spec_max_drawdown_abs initial curve ∧
    (0 < initial →
      (compute_drawdown_from_equity curve initial).2
        = spec_max_drawdown_abs initial curve / initial) ∧
    (¬ 0 < initial → (compute_drawdown_from_equity curve initial).2 = 0) := by
  have habs : (compute_drawdown_from_equity curve initial).1 = spec_max_drawdown_abs initial curve := by
    unfold compute_drawdown_from_equity spec_max_drawdown_abs spec_running_peak
    exact compute_drawdown_loop_eq curve initial 0
  refine ⟨habs, ?_, ?_⟩
  · intro h
    unfold compute_drawdown_from_equity at habs ⊢
    simp only [if_pos h]
    rw [habs.symm]
  · intro h
    unfold compute_drawdown_from_equity
    simp only [if_neg h]

/-- C1 amended witness: the amended theorem instantiated on the spec's
scenario curve. -/
theorem C1_drawdown_amended_witness :
    (0 < (10000 : ℚ)) ∧
    spec_max_drawdown_abs 10000 [10000, 10500, 9000, 9500] = 1500 ∧
    (compute_drawdown_from_equity [10000, 10500, 9000, 9500] 10000).2
      = spec_max_drawdown_abs 10000 [10000, 10500, 9000, 9500] / 10000 := by
  refine ⟨by norm_num, ?_, (C1_drawdown_amended _ _).2.1 (by norm_num)⟩
  norm_num [spec_max_drawdown_abs, spec_running_peak, List.range_succ]

/-! ### Backtest leg replay (`backtest_service.py`, `run_backtest`, lines 439-564)

The replay stage of `run_backtest`: the collected simulated legs are
sorted by close time, applied chronologically into an equity curve with a
peak-relative drawdown halt at the literal limit 0.3 of line 467, and the
summary statistics are computed from the applied legs (`virtual_trades`).
The 500-point truncation of the reported curve (lines 541-546) only
affects the serialized sample, not the computed summary, and is not
modelled.  The float `sharpe` is `expectancy / sqrt(sharpe_var)` when
`total_trades > 1` and the variance is positive, else 0; the embedding
carries the radicand `sharpe_var`. -/

/-- One simulated leg (the dicts appended to `all_legs`, lines 410-419). -/
structure SimLeg where
  open_time : ℚ
  close_time : ℚ
  pnl : ℚ
  r : ℚ
  symbol : String
  side : String
  trader : String
  notional : ℚ
  deriving Repr, DecidableEq

/-- Line 439: `all_legs.sort(key=lambda x: x["close_time"])` (stable). -/
def sort_legs (legs : List SimLeg) : List SimLeg :=
  legs.mergeSort (fun a b => a.close_time ≤ b.close_time)

/-- The chronological replay loop (lines 450-494): add each leg's net PnL
to equity, update the running peak, and compute the peak-relative
drawdown percentage; the leg that pushes it to ≥ 0.3 is still applied
(recorded in `virtual_trades`) but the `break` at the top of the next
iteration stops every later leg.  Returns the applied legs. -/
def replay_applied_loop : ℚ → ℚ → List SimLeg → List SimLeg
  | _, _, [] => []
  | equity, peak, leg :: rest =>
    let equity1 := equity + leg.pnl
    let peak1 := if equity1 > peak then equity1 else peak
    let dd_abs := peak1 - equity1
    let dd_pct := if peak1 > 0 then dd_abs / peak1 else 0
    if dd_pct ≥ 3/10 then [leg]
    else leg :: replay_applied_loop equity1 peak1 rest

/-- The reported equity curve rebuilt from the applied PnLs (lines
506-513): step counter and running equity after each applied leg. -/
def equity_curve_tail : ℚ → ℕ → List ℚ → List (ℕ × ℚ)
  | _, _, [] => []
  | equity, step, p :: rest =>
    (step + 1, equity + p) :: equity_curve_tail (equity + p) (step + 1) rest

/-- The summary blob assembled in lines 496-564 (analytical fields). -/
structure BacktestSummary where
  initial_equity : ℚ
  final_equity : ℚ
  total_pnl : ℚ
  total_return_pct : ℚ
  max_drawdown_abs : ℚ
  max_drawdown_pct : ℚ
  total_trades : ℕ
  win_rate : ℚ
  payoff_ratio : ℚ
  expectancy : ℚ
  sharpe_var : ℚ
  equity_curve : List (ℕ × ℚ)
  deriving Repr, DecidableEq

/-- The replay-and-summarize stage of `run_backtest` (lines 439-564),
starting from the collected `all_legs`: returns the applied legs
(`virtual_trades`) and the summary. -/
def run_backtest_replay (initial_equity : ℚ) (all_legs : List SimLeg) :
    List SimLeg × BacktestSummary :=
  let sorted := sort_legs all_legs
  let applied := replay_applied_loop initial_equity initial_equity sorted
  let virtual_pnls := applied.map (fun l => l.pnl)
  let total_trades := virtual_pnls.length
  let win_count := (virtual_pnls.filter (fun p => decide (p > 0))).length
  let equity := virtual_pnls.foldl (· + ·) initial_equity
  let equity_curve := (0, initial_equity) :: equity_curve_tail initial_equity 0 virtual_pnls
  let total_pnl := equity - initial_equity
  let total_return_pct := if initial_equity > 0 then total_pnl / initial_equity else 0
  let win_rate := if total_trades > 0 then (win_count : ℚ) / (total_trades : ℚ) else 0
  let wins := virtual_pnls.filter (fun p => decide (p > 0))
  let losses := virtual_pnls.filter (fun p => decide (p < 0))
  let avg_win := if wins ≠ [] then wins.sum / (wins.length : ℚ) else 0
  let avg_loss := if losses ≠ [] then -losses.sum / (losses.length : ℚ) else 0
  let payoff_ratio := if avg_win > 0 ∧ avg_loss > 0 then avg_win / avg_loss else 0
  let expectancy := if total_trades > 0 then virtual_pnls.sum / (total_trades : ℚ) else 0
  let sharpe_var := if total_trades > 1 then
      ((virtual_pnls.map (fun p => (p - expectancy) ^ 2)).sum) / (total_trades : ℚ) else 0
  let dd := compute_drawdown_from_equity (equity_curve.map (fun e => e.2)) initial_equity
  (applied,
   { initial_equity := initial_equity
     final_equity := equity
     total_pnl := total_pnl
     total_return_pct := total_return_pct
     max_drawdown_abs := dd.1
     max_drawdown_pct := dd.2
     total_trades := total_trades
     win_rate := win_rate
     payoff_ratio := payoff_ratio
     expectancy := expectancy
     sharpe_var := sharpe_var
     equity_curve := equity_curve })

/-- Modelled from the claim wording of C2: equity after applying the
first `n` legs, namely the initial equity plus the sum of their net PnL. -/
def pref_equity (initial : ℚ) (legs : List SimLeg) (n : ℕ) : ℚ :=
  initial + ((legs.take n).map (fun l => l.pnl)).sum

/-- Running peak with explicit peak seed: the maximum of `p` and the
equities (seeded at `e`) after 1..n legs. -/
def pref_peak_from (p e : ℚ) (legs : List SimLeg) (n : ℕ) : ℚ :=
  ((List.range n).map (fun i => pref_equity e legs (i + 1))).foldl max p

/-- Peak-relative drawdown percentage after `n` legs, with explicit
seeds. -/
def pref_dd_pct_from (p e : ℚ) (legs : List SimLeg) (n : ℕ) : ℚ :=
  if pref_peak_from p e legs n > 0 then
    (pref_peak_from p e legs n - pref_equity e legs n) / pref_peak_from p e legs n
  else 0

/-- Modelled from the claim wording of C2: the peak-relative drawdown
percentage of the running equity after `n` legs, the peak taken over the
initial equity and all equities up to that point. -/
def pref_dd_pct (initial : ℚ) (legs : List SimLeg) (n : ℕ) : ℚ :=
  pref_dd_pct_from initial initial legs n

lemma pref_equity_zero (initial : ℚ) (legs : List SimLeg) :
    pref_equity initial legs 0 = initial := by
  simp [pref_equity]

lemma pref_equity_shift (e : ℚ) (leg : SimLeg) (rest : List SimLeg) (n : ℕ) :
    pref_equity e (leg :: rest) (n + 1) = pref_equity (e + leg.pnl) rest n := by
  simp [pref_equity, List.take_succ_cons, add_assoc]

lemma pref_peak_from_shift (p e : ℚ) (leg : SimLeg) (rest : List SimLeg) (n : ℕ) :
    pref_peak_from p e (leg :: rest) (n + 1)
      = pref_peak_from (max p (e + leg.pnl)) (e + leg.pnl) rest n := by
  unfold pref_peak_from
  rw [List.range_succ_eq_map, List.map_cons, List.map_map, List.foldl_cons]
  have h0 : pref_equity e (leg :: rest) (0 + 1) = e + leg.pnl := by
    rw [pref_equity_shift, pref_equity_zero]
  rw [h0]
  apply congrArg
  apply List.map_congr_left
  intro i _
  show pref_equity e (leg :: rest) (i + 1 + 1) = pref_equity (e + leg.pnl) rest (i + 1)
  rw [pref_equity_shift]

lemma pref_dd_pct_from_shift (p e : ℚ) (leg : SimLeg) (rest : List SimLeg) (n : ℕ) :
    pref_dd_pct_from p e (leg :: rest) (n + 1)
      = pref_dd_pct_from (max p (e + leg.pnl)) (e + leg.pnl) rest n := by
  unfold pref_dd_pct_from
  rw [pref_peak_from_shift, pref_equity_shift]

lemma pref_peak_from_one (p e : ℚ) (leg : SimLeg) (rest : List SimLeg) :
    pref_peak_from p e (leg :: rest) 1 = max p (e + leg.pnl) := by
  rw [pref_peak_from_shift]
  simp [pref_peak_from]

lemma pref_dd_pct_from_one (p e : ℚ) (leg : SimLeg) (rest : List SimLeg) :
    pref_dd_pct_from p e (leg :: rest) 1
      = (if max p (e + leg.pnl) > 0 then
          (max p (e + leg.pnl) - (e + leg.pnl)) / max p (e + leg.pnl) else 0) := by
  rw [pref_dd_pct_from_shift]
  unfold pref_dd_pct_from
  simp [pref_peak_from, pref_equity]

/-- Structural characterization of the replay loop against the
prefix-based drawdown functions. -/
lemma replay_applied_loop_spec (legs : List SimLeg) :
    ∀ e p : ℚ,
      replay_applied_loop e p legs = legs.take (replay_applied_loop e p legs).length ∧
      (replay_applied_loop e p legs).length ≤ legs.length ∧
      (∀ n : ℕ, 0 < n → n < (replay_applied_loop e p legs).length →
        pref_dd_pct_from p e legs n < 3/10) ∧
      ((replay_applied_loop e p legs).length < legs.length →
        3/10 ≤ pref_dd_pct_from p e legs (replay_applied_loop e p legs).length) := by
  induction legs with
  | nil =>
    intro e p
    refine ⟨rfl, le_refl _, ?_, ?_⟩
    · intro n _ hn
      simp [replay_applied_loop] at hn
    · intro h
      simp [replay_applied_loop] at h
  | cons leg rest ih =>
    intro e p
    rw [replay_applied_loop]
    simp only [if_gt_eq_max]
    set e1 := e + leg.pnl with he1
    set p1 := max p e1 with hp1
    have hdd1 : pref_dd_pct_from p e (leg :: rest) 1
        = (if p1 > 0 then (p1 - e1) / p1 else 0) := by
      rw [pref_dd_pct_from_one]
    by_cases hhalt : (if p1 > 0 then (p1 - e1) / p1 else 0) ≥ 3/10
    · rw [if_pos hhalt]
      refine ⟨by simp, by simp, ?_, ?_⟩
      · intro n h0 h1
        simp at h1
        omega
      · intro _
        simpa [hdd1] using hhalt
    · rw [if_neg hhalt]
      obtain ⟨ihp, ihlen, ihlt, ihge⟩ := ih e1 p1
      refine ⟨?_, ?_, ?_, ?_⟩
      · simp only [List.length_cons, List.take_succ_cons]
        rw [← ihp]
      · simp only [List.length_cons]
        omega
      · intro n h0 hn
        match n, h0 with
        | 1, _ =>
          rw [hdd1]
          exact lt_of_not_ge hhalt
        | (m + 2), _ =>
          rw [show m + 2 = (m + 1) + 1 by rfl, pref_dd_pct_from_shift, ← he1, ← hp1]
          apply ihlt (m + 1) (by omega)
          simp at hn
          omega
      · intro hlt
        simp only [List.length_cons] at hlt ⊢
        rw [show (replay_applied_loop e1 p1 rest).length + 1
            = (replay_applied_loop e1 p1 rest).length + 1 by rfl,
          pref_dd_pct_from_shift, ← he1, ← hp1]
        exact ihge (by omega)

lemma foldl_add_eq_add_sum (l : List ℚ) : ∀ a : ℚ, l.foldl (· + ·) a = a + l.sum := by
  induction l with
  | nil => intro a; simp
  | cons x xs ih =>
    intro a
    rw [List.foldl_cons, List.sum_cons, ih, add_assoc]

lemma equity_curve_tail_spec (pnls : List ℚ) :
    ∀ (e : ℚ) (step : ℕ),
      (equity_curve_tail e step pnls).length = pnls.length ∧
      (∀ n : ℕ, n < pnls.length →
        (equity_curve_tail e step pnls).getD n (0, 0)
          = (step + n + 1, e + (pnls.take (n + 1)).sum)) := by
  induction pnls with
  | nil => intro e step; simp [equity_curve_tail]
  | cons x xs ih =>
    intro e step
    rw [equity_curve_tail]
    obtain ⟨ihlen, ihget⟩ := ih (e + x) (step + 1)
    refine ⟨by simp [ihlen], ?_⟩
    intro n hn
    match n with
    | 0 => simp
    | m + 1 =>
      simp only [List.getD_cons_succ]
      rw [ihget m (by simpa using hn)]
      simp only [Prod.mk.injEq]
      refine ⟨by omega, ?_⟩
      rw [List.take_succ_cons, List.sum_cons, add_assoc]

/-- C2: the replay applies legs in ascending close-time order from the
configured initial equity; the applied legs are a prefix of the
close-time-sorted leg list; the reported equity after N applied legs is
initial_equity plus the sum of their net PnL (point N of the curve, and
the final equity); no applied leg before the last one pushes the
peak-relative drawdown to the 0.3 limit, while if any leg was left
unapplied then the last applied leg does; and the summary metrics are
computed over exactly the applied legs. -/
theorem C2_replay_halt (initial : ℚ) (all_legs : List SimLeg) :
    (run_backtest_replay initial all_legs).1
        = (sort_legs all_legs).take (run_backtest_replay initial all_legs).1.length ∧
    List.Pairwise (fun a b : SimLeg => a.close_time ≤ b.close_time)
      (run_backtest_replay initial all_legs).1 ∧
    (run_backtest_replay initial all_legs).2.equity_curve.length
        = (run_backtest_replay initial all_legs).1.length + 1 ∧
    (∀ n : ℕ, n ≤ (run_backtest_replay initial all_legs).1.length →
      (run_backtest_replay initial all_legs).2.equity_curve.getD n (0, 0)
        = (n, pref_equity initial (run_backtest_replay initial all_legs).1 n)) ∧
    (run_backtest_replay initial all_legs).2.final_equity
        = initial + ((run_backtest_replay initial all_legs).1.map (fun l => l.pnl)).sum ∧
    (∀ n : ℕ, 0 < n → n < (run_backtest_replay initial all_legs).1.length →
      pref_dd_pct initial (sort_legs all_legs) n < 3/10) ∧
    ((run_backtest_replay initial all_legs).1.length < (sort_legs all_legs).length →
      3/10 ≤ pref_dd_pct initial (sort_legs all_legs)
        (run_backtest_replay initial all_legs).1.length) ∧
    (run_backtest_replay initial all_legs).2.total_trades
        = (run_backtest_replay initial all_legs).1.length ∧
    (run_backtest_replay initial all_legs).2.expectancy
        = (if 0 < (run_backtest_replay initial all_legs).1.length then
            ((run_backtest_replay initial all_legs).1.map (fun l => l.pnl)).sum
              / ((run_backtest_replay initial all_legs).1.length : ℚ)
          else 0) ∧
    (run_backtest_replay initial all_legs).2.win_rate
        = (if 0 < (run_backtest_replay initial all_legs).1.length then
            ((((run_backtest_replay initial all_legs).1.map (fun l => l.pnl)).filter
                (fun p => decide (p > 0))).length : ℚ)
              / ((run_backtest_replay initial all_legs).1.length : ℚ)
          else 0) := by
  have happlied : (run_backtest_replay initial all_legs).1
      = replay_applied_loop initial initial (sort_legs all_legs) := rfl
  obtain ⟨hpre, hlen, hlt, hge⟩ :=
    replay_applied_loop_spec (sort_legs all_legs) initial initial
  have hsorted : List.Pairwise (fun a b : SimLeg => a.close_time ≤ b.close_time)
      (sort_legs all_legs) := by
    have := @List.sorted_mergeSort SimLeg
      (fun a b : SimLeg => decide (a.close_time ≤ b.close_time))
      (fun a b c hab hbc => by
        simp only [decide_eq_true_eq] at *
        exact le_trans hab hbc)
      (fun a b => by
        simp only [Bool.or_eq_true, decide_eq_true_eq]
        exact le_total a.close_time b.close_time)
      all_legs
    exact this.imp (fun h => of_decide_eq_true h)
  have happlied_sorted : List.Pairwise (fun a b : SimLeg => a.close_time ≤ b.close_time)
      (run_backtest_replay initial all_legs).1 := by
    rw [happlied, hpre, ← happlied]
    exact hsorted.sublist (List.take_sublist _ _)
  obtain ⟨hclen, hcget⟩ :=
    equity_curve_tail_spec
      ((replay_applied_loop initial initial (sort_legs all_legs)).map (fun l => l.pnl))
      initial 0
  refine ⟨happlied ▸ hpre, happlied_sorted, ?_, ?_, ?_, happlied ▸ hlt, happlied ▸ hge, ?_, ?_, ?_⟩
  · show ((0, initial) :: equity_curve_tail initial 0
        ((replay_applied_loop initial initial (sort_legs all_legs)).map (fun l => l.pnl))).length
      = (run_backtest_replay initial all_legs).1.length + 1
    rw [List.length_cons, hclen, List.length_map]
    rfl
  · intro n hn
    match n with
    | 0 =>
      show ((0, initial) :: equity_curve_tail initial 0
          ((replay_applied_loop initial initial (sort_legs all_legs)).map (fun l => l.pnl))).getD 0 (0, 0)
        = (0, pref_equity initial (run_backtest_replay initial all_legs).1 0)
      rw [pref_equity_zero]
      rfl
    | m + 1 =>
      have hn2 : m + 1 ≤ (replay_applied_loop initial initial (sort_legs all_legs)).length := hn
      show ((0, initial) :: equity_curve_tail initial 0
          ((replay_applied_loop initial initial (sort_legs all_legs)).map (fun l => l.pnl))).getD (m + 1) (0, 0)
        = (m + 1, pref_equity initial (run_backtest_replay initial all_legs).1 (m + 1))
      rw [List.getD_cons_succ, hcget m (by rw [List.length_map]; omega)]
      simp only [Prod.mk.injEq]
      refine ⟨by omega, ?_⟩
      simp only [pref_equity]
      rw [← List.map_take]
      rfl
  · show ((replay_applied_loop initial initial (sort_legs all_legs)).map (fun l => l.pnl)).foldl (· + ·) initial
      = initial + ((run_backtest_replay initial all_legs).1.map (fun l => l.pnl)).sum
    rw [foldl_add_eq_add_sum]
    rfl
  · show ((replay_applied_loop initial initial (sort_legs all_legs)).map (fun l => l.pnl)).length
      = (run_backtest_replay initial all_legs).1.length
    rw [List.length_map]
    rfl
  · show (if 0 < ((replay_applied_loop initial initial (sort_legs all_legs)).map (fun l => l.pnl)).length then
        ((replay_applied_loop initial initial (sort_legs all_legs)).map (fun l => l.pnl)).sum
          / (((replay_applied_loop initial initial (sort_legs all_legs)).map (fun l => l.pnl)).length : ℚ)
      else 0)
      = (if 0 < (run_backtest_replay initial all_legs).1.length then
          ((run_backtest_replay initial all_legs).1.map (fun l => l.pnl)).sum
            / ((run_backtest_replay initial all_legs).1.length : ℚ)
        else 0)
    rw [List.length_map]
    rfl
  · show (if 0 < ((replay_applied_loop initial initial (sort_legs all_legs)).map (fun l => l.pnl)).length then
        (((((replay_applied_loop initial initial (sort_legs all_legs)).map (fun l => l.pnl)).filter
            (fun p => decide (p > 0))).length : ℚ))
          / (((replay_applied_loop initial initial (sort_legs all_legs)).map (fun l => l.pnl)).length : ℚ)
      else 0)
      = (if 0 < (run_backtest_replay initial all_legs).1.length then
          (((((run_backtest_replay initial all_legs).1.map (fun l => l.pnl)).filter
              (fun p => decide (p > 0))).length : ℚ))
            / ((run_backtest_replay initial all_legs).1.length : ℚ)
        else 0)
    rw [List.length_map]
    rfl

/-- C2 witness: initial equity 1000, legs with PnL +100, -400, +500 in
close-time order.  The second leg pushes the peak-relative drawdown to
400/1100 ≥ 0.3, so exactly the first two legs are applied, the final
equity is 1000 + 100 - 400 = 700, and the third leg is never applied. -/
theorem C2_replay_halt_witness :
    (run_backtest_replay 1000
        [⟨0, 1, 100, 0, "BTC", "long", "a", 100⟩,
         ⟨0, 2, -400, 0, "BTC", "long", "a", 100⟩,
         ⟨0, 3, 500, 0, "BTC", "long", "a", 100⟩]).1.length = 2 ∧
    (run_backtest_replay 1000
        [⟨0, 1, 100, 0, "BTC", "long", "a", 100⟩,
         ⟨0, 2, -400, 0, "BTC", "long", "a", 100⟩,
         ⟨0, 3, 500, 0, "BTC", "long", "a", 100⟩]).2.final_equity
      = 1000 + (((run_backtest_replay 1000
        [⟨0, 1, 100, 0, "BTC", "long", "a", 100⟩,
         ⟨0, 2, -400, 0, "BTC", "long", "a", 100⟩,
         ⟨0, 3, 500, 0, "BTC", "long", "a", 100⟩]).1.map (fun l => l.pnl)).sum) ∧
    pref_dd_pct 1000 (sort_legs
        [⟨0, 1, 100, 0, "BTC", "long", "a", 100⟩,
         ⟨0, 2, -400, 0, "BTC", "long", "a", 100⟩,
         ⟨0, 3, 500, 0, "BTC", "long", "a", 100⟩]) 1 < 3/10 ∧
    3/10 ≤ pref_dd_pct 1000 (sort_legs
        [⟨0, 1, 100, 0, "BTC", "long", "a", 100⟩,
         ⟨0, 2, -400, 0, "BTC", "long", "a", 100⟩,
         ⟨0, 3, 500, 0, "BTC", "long", "a", 100⟩]) 2 := by
  have hlen : (run_backtest_replay 1000
      [(⟨0, 1, 100, 0, "BTC", "long", "a", 100⟩ : SimLeg),
       ⟨0, 2, -400, 0, "BTC", "long", "a", 100⟩,
       ⟨0, 3, 500, 0, "BTC", "long", "a", 100⟩]).1.length = 2 := by
    norm_num [run_backtest_replay, sort_legs, List.mergeSort, replay_applied_loop]
  refine ⟨hlen, (C2_replay_halt 1000 _).2.2.2.2.1, ?_, ?_⟩
  · exact (C2_replay_halt 1000 _).2.2.2.2.2.1 1 (by norm_num) (by rw [hlen]; norm_num)
  · have h3 : (sort_legs
        [(⟨0, 1, 100, 0, "BTC", "long", "a", 100⟩ : SimLeg),
         ⟨0, 2, -400, 0, "BTC", "long", "a", 100⟩,
         ⟨0, 3, 500, 0, "BTC", "long", "a", 100⟩]).length = 3 := by
      norm_num [sort_legs, List.mergeSort]
    have := (C2_replay_halt 1000
      [(⟨0, 1, 100, 0, "BTC", "long", "a", 100⟩ : SimLeg),
       ⟨0, 2, -400, 0, "BTC", "long", "a", 100⟩,
       ⟨0, 3, 500, 0, "BTC", "long", "a", 100⟩]).2.2.2.2.2.2.1
    rw [hlen, h3] at this
    exact hlen ▸ this (by norm_num)

/-! ### Signal aggregation engines (`strategy_engine.py` and the in-memory
clone `_bt_process_trade_event` of `backtest_service.py`) -/

/-- `StrategyConfig` of `schemas/signal.py`.  The integer fields
`time_window_seconds` and `min_signal_interval_seconds` are embedded as
rationals; they are only ever compared against time differences. -/
structure StrategyConfig where
  time_window_seconds : ℚ
  price_range_width_pct : Option ℚ
  price_range_width_abs : Option ℚ
  min_smart_traders : ℕ
  min_signal_interval_seconds : ℚ
  deriving Repr, DecidableEq

/-- `TradeEvent` of `schemas/signal.py` (live feed). -/
structure TradeEvent where
  trader_address : String
  symbol : String
  side : String
  price : ℚ
  size : ℚ
  timestamp : ℚ
  deriving Repr, DecidableEq

/-- `BacktestTradeEvent` of `backtest_service.py`. -/
structure BacktestTradeEvent where
  trader_address : String
  symbol : String
  side : String
  price : ℚ
  size : ℚ
  timestamp : ℚ
  exit_price : Option ℚ
  realized_pnl : Option ℚ
  closed_at : Option ℚ
  deriving Repr, DecidableEq

/-- `BacktestEngineContext` of `backtest_service.py`: the per-run
in-memory engine state (`event_buffers` and `last_signal_ts`, keyed by
(symbol, side)); `run_backtest` constructs a fresh one per run. -/
structure BacktestEngineContext where
  event_buffers : String × String → List BacktestTradeEvent
  last_signal_ts : String × String → Option ℚ

/-- The freshly constructed context of `run_backtest` (line 288):
`defaultdict(deque)` and an empty dict. -/
def bt_empty_ctx : BacktestEngineContext :=
  ⟨fun _ => [], fun _ => none⟩

/-- `_bt_get_price_range` of `backtest_service.py`. -/
def bt_get_price_range (event : BacktestTradeEvent) (config : StrategyConfig) : ℚ × ℚ :=
  match config.price_range_width_pct with
  | some pct => (event.price - event.price * (pct / 2), event.price + event.price * (pct / 2))
  | none =>
    match config.price_range_width_abs with
    | some w => (event.price - w / 2, event.price + w / 2)
    | none => (event.price, event.price)

/-- The lightweight signal dict returned by `_bt_process_trade_event`. -/
structure BtSignal where
  symbol : String
  side : String
  price_min : ℚ
  price_max : ℚ
  timestamp : ℚ
  smart_trader_count : ℕ
  addresses : List String
  deriving Repr, DecidableEq

/-- Step 3 of `_bt_process_trade_event`: the distinct trader addresses
among the (already trimmed) buffer entries lying inside the price band
with matching symbol and side (the Python `set` is modelled as a
deduplicated list). -/
def bt_cluster_addresses (buf : List BacktestTradeEvent) (event : BacktestTradeEvent)
    (config : StrategyConfig) : List String :=
  let pr := bt_get_price_range event config
  ((buf.filter (fun e => decide (pr.1 ≤ e.price ∧ e.price ≤ pr.2 ∧
      e.symbol = event.symbol ∧ e.side = event.side))).map
    (fun e => e.trader_address)).dedup

/-- `_bt_process_trade_event` of `backtest_service.py`: append the event
to its (symbol, side) buffer, evict entries older than
`timestamp - time_window_seconds` from the front, count the distinct
smart-address cluster inside the price band, apply the
`min_smart_traders` threshold and the debounce, and emit.  A suppressed
event leaves `last_signal_ts` untouched. -/
def bt_process_trade_event (ctx : BacktestEngineContext) (event : BacktestTradeEvent)
    (config : StrategyConfig) : BacktestEngineContext × Option BtSignal :=
  let key := (event.symbol, event.side)
  let cutoff := event.timestamp - config.time_window_seconds
  let buf := (ctx.event_buffers key ++ [event]).dropWhile
    (fun e => decide (e.timestamp < cutoff))
  let bufs1 := fun k => if k = key then buf else ctx.event_buffers k
  let pr := bt_get_price_range event config
  let smart_addresses := bt_cluster_addresses buf event config
  let smart_count := smart_addresses.length
  if smart_count < config.min_smart_traders then
    ({ event_buffers := bufs1, last_signal_ts := ctx.last_signal_ts }, none)
  else
    let debounced := match ctx.last_signal_ts key with
      | some last_ts => decide (event.timestamp - last_ts < config.min_signal_interval_seconds)
      | none => false
    if debounced then
      ({ event_buffers := bufs1, last_signal_ts := ctx.last_signal_ts }, none)
    else
      ({ event_buffers := bufs1,
         last_signal_ts := fun k => if k = key then some event.timestamp else ctx.last_signal_ts k },
       some { symbol := event.symbol, side := event.side, price_min := pr.1, price_max := pr.2,
              timestamp := event.timestamp, smart_trader_count := smart_count,
              addresses := smart_addresses })

/-- Folding a chronological event list through the backtest engine
(the loop of `run_backtest` feeding `_bt_process_trade_event`),
collecting the emitted signals. -/
def bt_run (config : StrategyConfig) :
    BacktestEngineContext → List BacktestTradeEvent → BacktestEngineContext × List BtSignal
  | ctx, [] => (ctx, [])
  | ctx, e :: rest =>
    let step := bt_process_trade_event ctx e config
    let r := bt_run config step.1 rest
    (r.1, step.2.toList ++ r.2)

/-- Per-event outputs of one backtest engine run (`none` for events that
emitted no signal). -/
def bt_run_outputs (config : StrategyConfig) :
    BacktestEngineContext → List BacktestTradeEvent → List (Option BtSignal)
  | _, [] => []
  | ctx, e :: rest =>
    let step := bt_process_trade_event ctx e config
    step.2 :: bt_run_outputs config step.1 rest

/-- Two backtest runs interleaved: each tagged event is processed against
the context owned by its own run, as in the source where every run holds
its own `BacktestEngineContext`. -/
def bt_run_tagged (config : StrategyConfig) :
    BacktestEngineContext × BacktestEngineContext → List (Bool × BacktestTradeEvent) →
      List (Bool × Option BtSignal)
  | _, [] => []
  | ctxs, (tag, e) :: rest =>
    if tag then
      let step := bt_process_trade_event ctxs.1 e config
      (tag, step.2) :: bt_run_tagged config (step.1, ctxs.2) rest
    else
      let step := bt_process_trade_event ctxs.2 e config
      (tag, step.2) :: bt_run_tagged config (ctxs.1, step.1) rest

/-- The outputs belonging to one tagged stream. -/
def outputs_for {α : Type} (tag : Bool) (l : List (Bool × α)) : List α :=
  (l.filter (fun p => p.1 == tag)).map (fun p => p.2)

/-- `Signal` ORM record (`models/signal.py`) as created by
`process_trade_event` and consumed by `execute_signal`. -/
structure Signal where
  symbol : String
  side : String
  price_range_min : ℚ
  price_range_max : ℚ
  smart_trader_count : ℕ
  trader_addresses : List String
  signal_strength : ℚ
  executed : Bool
  executed_at : Option ℚ
  created_at : ℚ
  deriving Repr, DecidableEq

/-- The module-level mutable state of `strategy_engine.py`:
`_EVENT_BUFFERS` (line 14) and `_LAST_SIGNAL_TS` (line 17).  These live
at module scope, so there is exactly one such state per process, shared
by every live processing call — it is not owned by any engine instance. -/
structure LiveEngineModuleState where
  event_buffers : String × String → List TradeEvent
  last_signal_ts : String × String → Option ℚ

/-- The initial module state: empty `defaultdict(deque)` and empty dict. -/
def live_empty_state : LiveEngineModuleState := ⟨fun _ => [], fun _ => none⟩

/-- `_get_price_range` of `strategy_engine.py`. -/
def get_price_range (event : TradeEvent) (config : StrategyConfig) : ℚ × ℚ :=
  match config.price_range_width_pct with
  | some pct => (event.price - event.price * (pct / 2), event.price + event.price * (pct / 2))
  | none =>
    match config.price_range_width_abs with
    | some w => (event.price - w / 2, event.price + w / 2)
    | none => (event.price, event.price)

/-- `process_trade_event` of `strategy_engine.py`.  The smart-universe
eligibility lookup of step 1 (a database query) is modelled by the
`eligible` predicate; persisting the created Signal is modelled by the
returned value.  The state read and written is the module-level one. -/
def process_trade_event (eligible : String → Bool) (st : LiveEngineModuleState)
    (event : TradeEvent) (config : StrategyConfig) : LiveEngineModuleState × Option Signal :=
  if eligible event.trader_address = false then (st, none)
  else
    let key := (event.symbol, event.side)
    let cutoff := event.timestamp - config.time_window_seconds
    let buf := (st.event_buffers key ++ [event]).dropWhile
      (fun e => decide (e.timestamp < cutoff))
    let bufs1 := fun k => if k = key then buf else st.event_buffers k
    let pr := get_price_range event config
    let smart_addresses := ((buf.filter (fun e => decide (pr.1 ≤ e.price ∧ e.price ≤ pr.2 ∧
        e.symbol = event.symbol ∧ e.side = event.side))).map
      (fun e => e.trader_address)).dedup
    let smart_count := smart_addresses.length
    if smart_count < config.min_smart_traders then
      ({ event_buffers := bufs1, last_signal_ts := st.last_signal_ts }, none)
    else
      let debounced := match st.last_signal_ts key with
        | some last_ts => decide (event.timestamp - last_ts < config.min_signal_interval_seconds)
        | none => false
      if debounced then
        ({ event_buffers := bufs1, last_signal_ts := st.last_signal_ts }, none)
      else
        ({ event_buffers := bufs1,
           last_signal_ts := fun k => if k = key then some event.timestamp else st.last_signal_ts k },
         some { symbol := event.symbol, side := event.side, price_range_min := pr.1,
                price_range_max := pr.2, smart_trader_count := smart_count,
                trader_addresses := smart_addresses, signal_strength := (smart_count : ℚ),
                executed := false, executed_at := none, created_at := event.timestamp })

/-- One live stream processed alone from a given module state. -/
def run_live (eligible : String → Bool) (config : StrategyConfig) :
    LiveEngineModuleState → List TradeEvent → List (Option Signal)
  | _, [] => []
  | st, e :: rest =>
    let step := process_trade_event eligible st e config
    step.2 :: run_live eligible config step.1 rest

/-- Two live processing streams interleaved in one process: since the
buffers are module-level, every call reads and writes the same state. -/
def run_live_shared (eligible : String → Bool) (config : StrategyConfig) :
    LiveEngineModuleState → List (Bool × TradeEvent) → List (Bool × Option Signal)
  | _, [] => []
  | st, (tag, e) :: rest =>
    let step := process_trade_event eligible st e config
    (tag, step.2) :: run_live_shared eligible config step.1 rest

/-- C3 counterexample: the live engine's buffers and debounce timestamps
are module-level globals, so two live processing streams in one process
share state.  Concretely, with a 300s window, zero-width price band,
min_smart_traders = 1 and a 10s debounce: stream A's events (address "a"
at t=0 and t=12) alone produce two single-address signals, but when
stream B's event (address "b", t=5, same symbol/side) is interleaved in
the same process, A's second emitted signal changes (it now counts two
addresses) — A's output depends on B's events. -/
theorem C3_live_shared_state_counterexample :
    outputs_for true (run_live_shared (fun _ => true) ⟨300, none, none, 1, 10⟩ live_empty_state
        [(true, ⟨"a", "BTC", "long", 100, 1, 0⟩),
         (false, ⟨"b", "BTC", "long", 100, 1, 5⟩),
         (true, ⟨"a", "BTC", "long", 100, 1, 12⟩)])
      ≠ run_live (fun _ => true) ⟨300, none, none, 1, 10⟩ live_empty_state
          [⟨"a", "BTC", "long", 100, 1, 0⟩, ⟨"a", "BTC", "long", 100, 1, 12⟩] := by
  have hba : ("b" : String) ≠ "a" := by decide
  have hab : ("a" : String) ≠ "b" := by decide
  norm_num [outputs_for, run_live_shared, run_live, process_trade_event, get_price_range,
    live_empty_state, List.dedup, List.pwFilter, hba, hab]

/-- C3 (amended): the backtest engine's sliding-window buffers and
debounce timestamps are explicit per-run state (`BacktestEngineContext`,
constructed fresh by each `run_backtest`), so two interleaved backtest
runs never influence each other: for every interleaving and every pair of
starting contexts, each run's per-event outputs equal the outputs of
processing its own event sequence alone.  (The live engine, by contrast,
keeps this state in module-level globals — see the counterexample.) -/
theorem C3_backtest_isolation_amended (config : StrategyConfig)
    (events : List (Bool × BacktestTradeEvent)) :
    ∀ ca cb : BacktestEngineContext,
      outputs_for true (bt_run_tagged config (ca, cb) events)
          = bt_run_outputs config ca ((events.filter (fun p => p.1 == true)).map (fun p => p.2)) ∧
      outputs_for false (bt_run_tagged config (ca, cb) events)
          = bt_run_outputs config cb ((events.filter (fun p => p.1 == false)).map (fun p => p.2)) := by
  induction events with
  | nil =>
    intro ca cb
    exact ⟨rfl, rfl⟩
  | cons te rest ih =>
    intro ca cb
    obtain ⟨tag, e⟩ := te
    cases tag
    · obtain ⟨ih1, ih2⟩ := ih ca (bt_process_trade_event cb e config).1
      constructor
      · simpa [bt_run_tagged, outputs_for, bt_run_outputs] using ih1
      · simpa [bt_run_tagged, outputs_for, bt_run_outputs] using ih2
    · obtain ⟨ih1, ih2⟩ := ih (bt_process_trade_event ca e config).1 cb
      constructor
      · simpa [bt_run_tagged, outputs_for, bt_run_outputs] using ih1
      · simpa [bt_run_tagged, outputs_for, bt_run_outputs] using ih2

/-- C3 amended witness: the isolation theorem instantiated on the
interleaving used in the counterexample, both runs starting from fresh
contexts: the first run's outputs are exactly those of its own events. -/
theorem C3_backtest_isolation_amended_witness :
    outputs_for true (bt_run_tagged ⟨300, none, none, 1, 10⟩ (bt_empty_ctx, bt_empty_ctx)
        [(true, ⟨"a", "BTC", "long", 100, 1, 0, none, none, none⟩),
         (false, ⟨"b", "BTC", "long", 100, 1, 5, none, none, none⟩),
         (true, ⟨"a", "BTC", "long", 100, 1, 12, none, none, none⟩)])
      = bt_run_outputs ⟨300, none, none, 1, 10⟩ bt_empty_ctx
          [⟨"a", "BTC", "long", 100, 1, 0, none, none, none⟩,
           ⟨"a", "BTC", "long", 100, 1, 12, none, none, none⟩] := by
  have h := (C3_backtest_isolation_amended ⟨300, none, none, 1, 10⟩
      [(true, ⟨"a", "BTC", "long", 100, 1, 0, none, none, none⟩),
       (false, ⟨"b", "BTC", "long", 100, 1, 5, none, none, none⟩),
       (true, ⟨"a", "BTC", "long", 100, 1, 12, none, none, none⟩)]
      bt_empty_ctx bt_empty_ctx).1
  simpa using h

/-- Case analysis of one backtest engine step: either no signal is
emitted and the debounce anchors are untouched, or a signal carrying the
event's timestamp/symbol/side is emitted, the anchor for its key is set
to the event timestamp, and — if an anchor existed — the event is at
least the debounce interval after it. -/
lemma bt_process_spec (ctx : BacktestEngineContext) (event : BacktestTradeEvent)
    (config : StrategyConfig) :
    ((bt_process_trade_event ctx event config).2 = none ∧
     (bt_process_trade_event ctx event config).1.last_signal_ts = ctx.last_signal_ts) ∨
    ((bt_process_trade_event ctx event config).2 ≠ none ∧
     (∀ s : BtSignal, (bt_process_trade_event ctx event config).2 = some s →
        s.timestamp = event.timestamp ∧ s.symbol = event.symbol ∧ s.side = event.side) ∧
     ((bt_process_trade_event ctx event config).1.last_signal_ts
        = fun k => if k = (event.symbol, event.side) then some event.timestamp
                   else ctx.last_signal_ts k) ∧
     (∀ t : ℚ, ctx.last_signal_ts (event.symbol, event.side) = some t →
        config.min_signal_interval_seconds ≤ event.timestamp - t)) := by
  unfold bt_process_trade_event
  by_cases h1 : (bt_cluster_addresses
      ((ctx.event_buffers (event.symbol, event.side) ++ [event]).dropWhile
        (fun e => decide (e.timestamp < event.timestamp - config.time_window_seconds)))
      event config).length < config.min_smart_traders
  · left
    simp [h1]
  · cases hlast : ctx.last_signal_ts (event.symbol, event.side) with
    | none =>
      right
      refine ⟨?_, ?_, ?_, ?_⟩
      · simp [h1, hlast]
      · intro s hs
        simp only [h1, hlast] at hs
        simp at hs
        obtain ⟨_, _, _, _, hts, _, _⟩ := hs.symm
        simp_all
      · simp [h1, hlast]
      · intro t ht
        exact Option.noConfusion ht
    | some t =>
      by_cases h2 : event.timestamp - t < config.min_signal_interval_seconds
      · left
        simp [h1, hlast, h2]
      · right
        refine ⟨?_, ?_, ?_, ?_⟩
        · simp [h1, hlast, h2]
        · intro s hs
          simp only [h1, hlast, h2] at hs
          simp at hs
          obtain ⟨_, _, _, _, hts, _, _⟩ := hs.symm
          simp_all
        · simp [h1, hlast, h2]
        · intro t' ht'
          cases ht'
          exact le_of_not_lt h2

/-- Induction invariant for the debounce property over a whole run. -/
lemma bt_run_debounce_inv (config : StrategyConfig) :
    ∀ (events : List BacktestTradeEvent) (ctx : BacktestEngineContext),
      List.Pairwise (fun a b : BacktestTradeEvent => a.timestamp ≤ b.timestamp) events →
      (∀ e ∈ events, ∀ k t, ctx.last_signal_ts k = some t → t ≤ e.timestamp) →
      (∀ s ∈ (bt_run config ctx events).2,
        (∃ e ∈ events, s.timestamp = e.timestamp) ∧
        (∀ t : ℚ, ctx.last_signal_ts (s.symbol, s.side) = some t →
          config.min_signal_interval_seconds ≤ s.timestamp - t)) ∧
      List.Pairwise (fun s1 s2 : BtSignal => s1.symbol = s2.symbol ∧ s1.side = s2.side →
        config.min_signal_interval_seconds ≤ s2.timestamp - s1.timestamp)
        (bt_run config ctx events).2 := by
  intro events
  induction events with
  | nil =>
    intro ctx _ _
    constructor
    · intro s hs
      simp [bt_run] at hs
    · simp [bt_run]
  | cons e rest ih =>
    intro ctx hsorted hctx
    rw [List.pairwise_cons] at hsorted
    obtain ⟨hhead, htail⟩ := hsorted
    rw [bt_run]
    rcases bt_process_spec ctx e config with ⟨hnone, hlast⟩ | ⟨hne, hfields, hlast, hbound⟩
    · have hctx' : ∀ e' ∈ rest, ∀ k t,
          (bt_process_trade_event ctx e config).1.last_signal_ts k = some t → t ≤ e'.timestamp := by
        intro e' he' k t ht
        rw [hlast] at ht
        exact hctx e' (List.mem_cons_of_mem _ he') k t ht
      obtain ⟨ih1, ih2⟩ := ih (bt_process_trade_event ctx e config).1 htail hctx'
      rw [hnone]
      simp only [Option.toList_none, List.nil_append]
      constructor
      · intro s hs
        refine ⟨(ih1 s hs).1.imp (fun e' he' => ⟨List.mem_cons_of_mem _ he'.1, he'.2⟩), ?_⟩
        intro t ht
        exact (ih1 s hs).2 t (by rw [hlast]; exact ht)
      · exact ih2
    · have hctx' : ∀ e' ∈ rest, ∀ k t,
          (bt_process_trade_event ctx e config).1.last_signal_ts k = some t → t ≤ e'.timestamp := by
        intro e' he' k t ht
        simp only [hlast] at ht
        by_cases hk : k = (e.symbol, e.side)
        · rw [if_pos hk] at ht
          cases ht
          exact hhead e' he'
        · rw [if_neg hk] at ht
          exact hctx e' (List.mem_cons_of_mem _ he') k t ht
      obtain ⟨ih1, ih2⟩ := ih (bt_process_trade_event ctx e config).1 htail hctx'
      cases hsome : (bt_process_trade_event ctx e config).2 with
      | none => exact absurd hsome hne
      | some s =>
        obtain ⟨hts, hsym, hside⟩ := hfields s hsome
        simp only [Option.toList_some, List.cons_append, List.nil_append]
        have hupd : (bt_process_trade_event ctx e config).1.last_signal_ts (s.symbol, s.side)
            = some e.timestamp := by
          simp only [hlast]
          rw [if_pos (by rw [hsym, hside])]
        constructor
        · intro s' hs'
          rcases List.mem_cons.mp hs' with rfl | hs'
          · refine ⟨⟨e, List.mem_cons_self _ _, hts⟩, ?_⟩
            intro t ht
            rw [hsym, hside] at ht
            rw [hts]
            exact hbound t ht
          · refine ⟨(ih1 s' hs').1.imp (fun e' he' => ⟨List.mem_cons_of_mem _ he'.1, he'.2⟩), ?_⟩
            intro t ht
            by_cases hk : (s'.symbol, s'.side) = (e.symbol, e.side)
            · have h1 := (ih1 s' hs').2 e.timestamp
                (by simp only [hlast]; rw [if_pos hk])
              have h2 : t ≤ e.timestamp :=
                hctx e (List.mem_cons_self _ _) (s'.symbol, s'.side) t ht
              linarith
            · exact (ih1 s' hs').2 t (by simp only [hlast]; rw [if_neg hk]; exact ht)
        · rw [List.pairwise_cons]
          constructor
          · intro s' hs' hks
            have hk : (s'.symbol, s'.side) = (e.symbol, e.side) := by
              rw [← hks.1, ← hks.2, hsym, hside]
            have h1 := (ih1 s' hs').2 e.timestamp
              (by simp only [hlast]; rw [if_pos hk])
            rw [hts]
            exact h1
          · exact ih2

/-- C4: when one backtest engine instance processes events in
non-decreasing timestamp order, any two emitted signals for the same
(symbol, side) key are at least `min_signal_interval_seconds` apart in
event time (so never strictly closer than the interval); moreover a step
that emits no signal (in particular a debounced one) never updates the
debounce anchor `last_signal_ts`. -/
theorem C4_debounce_spacing (config : StrategyConfig) (events : List BacktestTradeEvent)
    (hsorted : List.Pairwise (fun a b : BacktestTradeEvent => a.timestamp ≤ b.timestamp) events) :
    List.Pairwise (fun s1 s2 : BtSignal => s1.symbol = s2.symbol ∧ s1.side = s2.side →
        config.min_signal_interval_seconds ≤ s2.timestamp - s1.timestamp)
      (bt_run config bt_empty_ctx events).2 ∧
    (∀ (ctx : BacktestEngineContext) (e : BacktestTradeEvent),
      (bt_process_trade_event ctx e config).2 = none →
      (bt_process_trade_event ctx e config).1.last_signal_ts = ctx.last_signal_ts) := by
  constructor
  · exact (bt_run_debounce_inv config events bt_empty_ctx hsorted
      (by intro e _ k t ht; simp [bt_empty_ctx] at ht)).2
  · intro ctx e h
    rcases bt_process_spec ctx e config with ⟨_, hl⟩ | ⟨hne, _, _, _⟩
    · exact hl
    · exact absurd h hne

/-- C4 witness: three same-key events at t = 0, 5, 12 with a 10s debounce
interval and min_smart_traders = 1: signals are emitted at t = 0 and
t = 12 (the t = 5 event is debounced), and the emitted signals satisfy
the pairwise spacing property. -/
theorem C4_debounce_spacing_witness :
    ((bt_run ⟨300, none, none, 1, 10⟩ bt_empty_ctx
        [⟨"a", "BTC", "long", 100, 1, 0, none, none, none⟩,
         ⟨"a", "BTC", "long", 100, 1, 5, none, none, none⟩,
         ⟨"a", "BTC", "long", 100, 1, 12, none, none, none⟩]).2.map
      (fun s => s.timestamp)) = [0, 12] ∧
    List.Pairwise (fun s1 s2 : BtSignal => s1.symbol = s2.symbol ∧ s1.side = s2.side →
        (10 : ℚ) ≤ s2.timestamp - s1.timestamp)
      (bt_run ⟨300, none, none, 1, 10⟩ bt_empty_ctx
        [⟨"a", "BTC", "long", 100, 1, 0, none, none, none⟩,
         ⟨"a", "BTC", "long", 100, 1, 5, none, none, none⟩,
         ⟨"a", "BTC", "long", 100, 1, 12, none, none, none⟩]).2 := by
  constructor
  · norm_num [bt_run, bt_process_trade_event, bt_cluster_addresses, bt_get_price_range,
      bt_empty_ctx, List.dedup, List.pwFilter]
  · exact (C4_debounce_spacing ⟨300, none, none, 1, 10⟩
      [⟨"a", "BTC", "long", 100, 1, 0, none, none, none⟩,
       ⟨"a", "BTC", "long", 100, 1, 5, none, none, none⟩,
       ⟨"a", "BTC", "long", 100, 1, 12, none, none, none⟩]
      (by norm_num [List.pairwise_cons])).1

/-- In every branch of one engine step, the stored buffer for the event's
key is the appended-then-trimmed buffer, and other keys are untouched. -/
lemma bt_process_buffers (ctx : BacktestEngineContext) (event : BacktestTradeEvent)
    (config : StrategyConfig) :
    (bt_process_trade_event ctx event config).1.event_buffers
      = fun k => if k = (event.symbol, event.side) then
          ((ctx.event_buffers (event.symbol, event.side) ++ [event]).dropWhile
            (fun e => decide (e.timestamp < event.timestamp - config.time_window_seconds)))
        else ctx.event_buffers k := by
  unfold bt_process_trade_event
  dsimp only
  split_ifs <;> rfl

/-- On a list sorted by non-decreasing timestamp, popping stale entries
from the front removes exactly the entries older than the cutoff. -/
lemma sorted_dropWhile_eq_filter (c : ℚ) :
    ∀ l : List BacktestTradeEvent,
      List.Pairwise (fun a b : BacktestTradeEvent => a.timestamp ≤ b.timestamp) l →
      l.dropWhile (fun e => decide (e.timestamp < c))
        = l.filter (fun e => decide (c ≤ e.timestamp)) := by
  intro l
  induction l with
  | nil => intro _; rfl
  | cons x xs ih =>
    intro h
    rw [List.pairwise_cons] at h
    by_cases hx : x.timestamp < c
    · rw [List.dropWhile_cons_of_pos (by simpa using hx),
        List.filter_cons_of_neg (by simpa using not_le.mpr hx)]
      exact ih h.2
    · rw [List.dropWhile_cons_of_neg (by simpa using hx),
        List.filter_cons_of_pos (by simpa using le_of_not_lt hx)]
      congr 1
      symm
      rw [List.filter_eq_self]
      intro a ha
      simp only [decide_eq_true_eq]
      exact le_trans (le_of_not_lt hx) (h.1 a ha)

/-- Running a sorted event list keeps every buffer sorted by timestamp
and bounded by any upper bound of the events. -/
lemma bt_run_buffers_inv (config : StrategyConfig) (bound : ℚ) :
    ∀ (events : List BacktestTradeEvent) (ctx : BacktestEngineContext),
      List.Pairwise (fun a b : BacktestTradeEvent => a.timestamp ≤ b.timestamp) events →
      (∀ e ∈ events, e.timestamp ≤ bound) →
      (∀ k x, x ∈ ctx.event_buffers k →
        (∀ e ∈ events, x.timestamp ≤ e.timestamp) ∧ x.timestamp ≤ bound) →
      (∀ k, List.Pairwise (fun a b : BacktestTradeEvent => a.timestamp ≤ b.timestamp)
        (ctx.event_buffers k)) →
      (∀ k, List.Pairwise (fun a b : BacktestTradeEvent => a.timestamp ≤ b.timestamp)
        ((bt_run config ctx events).1.event_buffers k)) ∧
      (∀ k x, x ∈ (bt_run config ctx events).1.event_buffers k → x.timestamp ≤ bound) := by
  intro events
  induction events with
  | nil =>
    intro ctx _ _ hmem hsort
    exact ⟨hsort, fun k x hx => (hmem k x hx).2⟩
  | cons e rest ih =>
    intro ctx hsorted hbound hmem hsort
    rw [List.pairwise_cons] at hsorted
    obtain ⟨hhead, htail⟩ := hsorted
    rw [bt_run]
    have hbufs := bt_process_buffers ctx e config
    have hmem' : ∀ k x, x ∈ (bt_process_trade_event ctx e config).1.event_buffers k →
        (∀ e' ∈ rest, x.timestamp ≤ e'.timestamp) ∧ x.timestamp ≤ bound := by
      intro k x hx
      simp only [hbufs] at hx
      by_cases hk : k = (e.symbol, e.side)
      · rw [if_pos hk] at hx
        have hx2 : x ∈ ctx.event_buffers (e.symbol, e.side) ++ [e] :=
          (List.dropWhile_sublist _).mem hx
        rcases List.mem_append.mp hx2 with hx3 | hx3
        · have := hmem _ x hx3
          exact ⟨fun e' he' => (this.1 e' (List.mem_cons_of_mem _ he')), this.2⟩
        · have hxe : x = e := by simpa using hx3
          rw [hxe]
          exact ⟨fun e' he' => hhead e' he', hbound e (List.mem_cons_self _ _)⟩
      · rw [if_neg hk] at hx
        have := hmem k x hx
        exact ⟨fun e' he' => this.1 e' (List.mem_cons_of_mem _ he'), this.2⟩
    have hsort' : ∀ k, List.Pairwise (fun a b : BacktestTradeEvent => a.timestamp ≤ b.timestamp)
        ((bt_process_trade_event ctx e config).1.event_buffers k) := by
      intro k
      simp only [hbufs]
      by_cases hk : k = (e.symbol, e.side)
      · rw [if_pos hk]
        apply List.Pairwise.sublist (List.dropWhile_sublist _)
        rw [List.pairwise_append]
        refine ⟨hsort _, List.pairwise_singleton _ _, ?_⟩
        intro x hx y hy
        have hye : y = e := by simpa using hy
        subst hye
        exact (hmem _ x hx).1 y (List.mem_cons_self _ _)
      · rw [if_neg hk]
        exact hsort k
    exact ih (bt_process_trade_event ctx e config).1 htail
      (fun e' he' => hbound e' (List.mem_cons_of_mem _ he')) hmem' hsort'

/-- C5: with events processed in non-decreasing timestamp order, at the
step processing event `e` (after any prefix of the stream) the engine's
stored buffer for `e`'s (symbol, side) key is exactly the appended buffer
filtered to entries with timestamp ≥ e.timestamp − time_window_seconds,
and every address counted in the smart-trader cluster comes from a
buffered event inside that window — an event older than the cutoff is
never counted. -/
theorem C5_window_eviction (config : StrategyConfig) (events : List BacktestTradeEvent)
    (pre : List BacktestTradeEvent) (e : BacktestTradeEvent) (post : List BacktestTradeEvent)
    (hsorted : List.Pairwise (fun a b : BacktestTradeEvent => a.timestamp ≤ b.timestamp) events)
    (hsplit : events = pre ++ e :: post) :
    ((bt_process_trade_event (bt_run config bt_empty_ctx pre).1 e config).1.event_buffers
        (e.symbol, e.side)
      = ((bt_run config bt_empty_ctx pre).1.event_buffers (e.symbol, e.side) ++ [e]).filter
          (fun x => decide (e.timestamp - config.time_window_seconds ≤ x.timestamp))) ∧
    (∀ a ∈ bt_cluster_addresses
        (((bt_run config bt_empty_ctx pre).1.event_buffers (e.symbol, e.side) ++ [e]).dropWhile
          (fun x => decide (x.timestamp < e.timestamp - config.time_window_seconds)))
        e config,
      ∃ x ∈ (bt_run config bt_empty_ctx pre).1.event_buffers (e.symbol, e.side) ++ [e],
        x.trader_address = a ∧ e.timestamp - config.time_window_seconds ≤ x.timestamp) := by
  subst hsplit
  rw [List.pairwise_append] at hsorted
  obtain ⟨hpre, hrest, hcross⟩ := hsorted
  have hinv := bt_run_buffers_inv config e.timestamp pre bt_empty_ctx hpre
    (fun p hp => hcross p hp e (List.mem_cons_self _ _))
    (by intro k x hx; simp [bt_empty_ctx] at hx)
    (by intro k; simp [bt_empty_ctx])
  obtain ⟨hsortbuf, hboundbuf⟩ := hinv
  have hfull : List.Pairwise (fun a b : BacktestTradeEvent => a.timestamp ≤ b.timestamp)
      ((bt_run config bt_empty_ctx pre).1.event_buffers (e.symbol, e.side) ++ [e]) := by
    rw [List.pairwise_append]
    refine ⟨hsortbuf _, List.pairwise_singleton _ _, ?_⟩
    intro x hx y hy
    have hye : y = e := by simpa using hy
    subst hye
    exact hboundbuf _ x hx
  have hdw := sorted_dropWhile_eq_filter (e.timestamp - config.time_window_seconds) _ hfull
  constructor
  · simp only [bt_process_buffers]
    rw [if_pos trivial]
    exact hdw
  · intro a ha
    rw [hdw] at ha
    unfold bt_cluster_addresses at ha
    rw [List.mem_dedup] at ha
    obtain ⟨x, hx, hxa⟩ := List.mem_map.mp ha
    rw [List.mem_filter] at hx
    obtain ⟨hx1, _⟩ := hx
    rw [List.mem_filter] at hx1
    refine ⟨x, hx1.1, hxa, ?_⟩
    simpa using hx1.2

/-- C5 witness: a 300s window with two same-key events at t = 0 and
t = 400: when the t = 400 event is processed, the t = 0 event is evicted,
the stored buffer holds exactly the new event, and the cluster counts
only the address of the in-window event. -/
theorem C5_window_eviction_witness :
    List.Pairwise (fun a b : BacktestTradeEvent => a.timestamp ≤ b.timestamp)
      [⟨"a", "BTC", "long", 100, 1, 0, none, none, none⟩,
       ⟨"c", "BTC", "long", 100, 1, 400, none, none, none⟩] ∧
    ((bt_process_trade_event
        (bt_run ⟨300, none, none, 1, 10⟩ bt_empty_ctx
          [⟨"a", "BTC", "long", 100, 1, 0, none, none, none⟩]).1
        ⟨"c", "BTC", "long", 100, 1, 400, none, none, none⟩
        ⟨300, none, none, 1, 10⟩).1.event_buffers ("BTC", "long")
      = [⟨"c", "BTC", "long", 100, 1, 400, none, none, none⟩]) := by
  have hsorted : List.Pairwise (fun a b : BacktestTradeEvent => a.timestamp ≤ b.timestamp)
      [(⟨"a", "BTC", "long", 100, 1, 0, none, none, none⟩ : BacktestTradeEvent),
       ⟨"c", "BTC", "long", 100, 1, 400, none, none, none⟩] := by
    norm_num [List.pairwise_cons]
  have h := (C5_window_eviction ⟨300, none, none, 1, 10⟩
      [⟨"a", "BTC", "long", 100, 1, 0, none, none, none⟩,
       ⟨"c", "BTC", "long", 100, 1, 400, none, none, none⟩]
      [⟨"a", "BTC", "long", 100, 1, 0, none, none, none⟩]
      ⟨"c", "BTC", "long", 100, 1, 400, none, none, none⟩
      [] hsorted rfl).1
  refine ⟨hsorted, ?_⟩
  rw [h]
  norm_num [bt_run, bt_process_trade_event, bt_cluster_addresses, bt_get_price_range,
    bt_empty_ctx, List.dedup, List.pwFilter]

/-! ### Signal execution (`execution_service.py`) -/

/-- `DEFAULT_NOTIONAL_PER_SIGNAL` of `execution_service.py`. -/
def DEFAULT_NOTIONAL_PER_SIGNAL : ℚ := 1/100

/-- `execute_signal` of `execution_service.py`, acting on the signal
record it looked up: if the signal is already executed it raises; then it
validates the computed entry price (midpoint of the price band) and the
effective notional, opens the simulated position, and only then marks the
signal executed with the current time.  Every `raise` happens before any
mutation of the signal, so an error outcome returns the signal unchanged
together with the error message. -/
def execute_signal (signal : Signal) (notional : Option ℚ) (now : ℚ) :
    Signal × Option String :=
  if signal.executed then (signal, some "already executed")
  else
    let entry_price := (signal.price_range_min + signal.price_range_max) / 2
    if entry_price ≤ 0 then (signal, some "invalid entry price")
    else
      let effective_notional := notional.getD DEFAULT_NOTIONAL_PER_SIGNAL
      if effective_notional ≤ 0 then (signal, some "notional must be positive")
      else ({ signal with executed := true, executed_at := some now }, none)

/-- C9 counterexample: `execute_signal` on a signal with
`executed = false` does not always set `executed = true`: on a signal
whose price band midpoint is not positive (here price_range_min = -2,
price_range_max = 0) it raises the entry-price validation error and
leaves `executed = false`. -/
theorem C9_execute_unexecuted_counterexample :
    (⟨"BTC", "long", -2, 0, 1, ["a"], 1, false, none, 0⟩ : Signal).executed = false ∧
    (execute_signal ⟨"BTC", "long", -2, 0, 1, ["a"], 1, false, none, 0⟩ none 100).1.executed
      = false ∧
    (execute_signal ⟨"BTC", "long", -2, 0, 1, ["a"], 1, false, none, 0⟩ none 100).2 ≠ none := by
  refine ⟨rfl, ?_, ?_⟩
  · norm_num [execute_signal, DEFAULT_NOTIONAL_PER_SIGNAL]
  · have h : (execute_signal ⟨"BTC", "long", -2, 0, 1, ["a"], 1, false, none, 0⟩ none 100).2
        = some "invalid entry price" := by
      norm_num [execute_signal, DEFAULT_NOTIONAL_PER_SIGNAL]
    rw [h]
    exact Option.some_ne_none _

/-- C9 (amended): the executed flag transitions false→true exactly once,
with the proviso that the false→true transition also requires the
validation to pass (positive band midpoint and positive effective
notional).  Executing an already-executed signal always errors and leaves
the signal — in particular `executed` and `executed_at` — unchanged;
`executed` never reverts to false. -/
theorem C9_execute_once_amended (signal : Signal) (notional : Option ℚ) (now : ℚ) :
    (signal.executed = true →
      (execute_signal signal notional now).1 = signal ∧
      (execute_signal signal notional now).2 ≠ none) ∧
    (signal.executed = false →
      0 < (signal.price_range_min + signal.price_range_max) / 2 →
      0 < notional.getD DEFAULT_NOTIONAL_PER_SIGNAL →
      (execute_signal signal notional now).1.executed = true ∧
      (execute_signal signal notional now).1.executed_at = some now ∧
      (execute_signal signal notional now).2 = none) ∧
    (signal.executed = true → (execute_signal signal notional now).1.executed = true) := by
  unfold execute_signal
  refine ⟨?_, ?_, ?_⟩
  · intro h
    simp [h]
  · intro h hentry hnot
    simp [h, not_le.mpr hentry, not_le.mpr hnot]
  · intro h
    simp [h]

/-- C9 amended witness: a fresh valid signal is executed (flag set, time
recorded, no error); re-executing the executed signal errors and leaves
it unchanged. -/
theorem C9_execute_once_amended_witness :
    ((⟨"BTC", "long", 99, 101, 2, ["a", "b"], 2, false, none, 0⟩ : Signal).executed = false ∧
     (execute_signal ⟨"BTC", "long", 99, 101, 2, ["a", "b"], 2, false, none, 0⟩ none 50).1.executed
        = true ∧
     (execute_signal ⟨"BTC", "long", 99, 101, 2, ["a", "b"], 2, false, none, 0⟩ none 50).1.executed_at
        = some 50 ∧
     (execute_signal ⟨"BTC", "long", 99, 101, 2, ["a", "b"], 2, false, none, 0⟩ none 50).2 = none) ∧
    ((⟨"BTC", "long", 99, 101, 2, ["a", "b"], 2, true, some 50, 0⟩ : Signal).executed = true ∧
     (execute_signal ⟨"BTC", "long", 99, 101, 2, ["a", "b"], 2, true, some 50, 0⟩ none 60).1
        = ⟨"BTC", "long", 99, 101, 2, ["a", "b"], 2, true, some 50, 0⟩ ∧
     (execute_signal ⟨"BTC", "long", 99, 101, 2, ["a", "b"], 2, true, some 50, 0⟩ none 60).2
        ≠ none) := by
  constructor
  · have h := (C9_execute_once_amended
        ⟨"BTC", "long", 99, 101, 2, ["a", "b"], 2, false, none, 0⟩ none 50).2.1
        rfl (by norm_num) (by norm_num [DEFAULT_NOTIONAL_PER_SIGNAL])
    exact ⟨rfl, h.1, h.2.1, h.2.2⟩
  · have h := (C9_execute_once_amended
        ⟨"BTC", "long", 99, 101, 2, ["a", "b"], 2, true, some 50, 0⟩ none 60).1 rfl
    exact ⟨rfl, h.1, h.2⟩

/-! ### Backtest universe selection (`backtest_service.py`, lines 190-216) -/

/-- One `SmartTraderUniverse` row (joined with its trader), restricted to
the columns the backtest universe query reads. -/
structure SmartUniverseRow where
  trader_id : ℕ
  window_days : ℤ
  eligible : Bool
  score : ℚ
  trades_per_day : ℚ
  deriving Repr, DecidableEq

/-- The universe query of `run_backtest` (lines 193-205): rows are
filtered on matching `window_days` — the `eligible` condition is
commented out (line 198) — plus, only when the corresponding request
parameter is present, `score >= min_score` and
`trades_per_day >= min_trades_per_day`. -/
def select_universe_rows (rows : List SmartUniverseRow) (window_days : ℤ)
    (min_score : Option ℚ) (min_trades_per_day : Option ℚ) : List SmartUniverseRow :=
  rows.filter (fun r =>
    decide (r.window_days = window_days) &&
    (match min_score with
     | some s => decide (s ≤ r.score)
     | none => true) &&
    (match min_trades_per_day with
     | some m => decide (m ≤ r.trades_per_day)
     | none => true))

/-- C10: when neither `min_score` nor `min_trades_per_day` is given, the
backtest universe selection keeps every row of the requested
`window_days` — the `eligible` flag is never consulted, so rows with
`eligible = false` are selected too. -/
theorem C10_no_eligible_filter (rows : List SmartUniverseRow) (window_days : ℤ) :
    select_universe_rows rows window_days none none
        = rows.filter (fun r => decide (r.window_days = window_days)) ∧
    (∀ r ∈ rows, r.window_days = window_days →
      r ∈ select_universe_rows rows window_days none none) := by
  have h : select_universe_rows rows window_days none none
      = rows.filter (fun r => decide (r.window_days = window_days)) := by
    unfold select_universe_rows
    apply List.filter_congr
    intro r _
    simp
  refine ⟨h, ?_⟩
  intro r hr hw
  rw [h, List.mem_filter]
  exact ⟨hr, by simpa using hw⟩

/-- C10 witness: a row with `eligible = false` and the requested window
is selected; a row of another window is not. -/
theorem C10_no_eligible_filter_witness :
    (⟨1, 30, false, 0, 0⟩ : SmartUniverseRow) ∈
      select_universe_rows [⟨1, 30, false, 0, 0⟩, ⟨2, 7, true, 1, 1⟩] 30 none none ∧
    select_universe_rows [⟨1, 30, false, 0, 0⟩, ⟨2, 7, true, 1, 1⟩] 30 none none
      = [⟨1, 30, false, 0, 0⟩] := by
  constructor
  · exact (C10_no_eligible_filter [⟨1, 30, false, 0, 0⟩, ⟨2, 7, true, 1, 1⟩] 30).2
      ⟨1, 30, false, 0, 0⟩ (List.mem_cons_self _ _) rfl
  · rw [(C10_no_eligible_filter [⟨1, 30, false, 0, 0⟩, ⟨2, 7, true, 1, 1⟩] 30).1]
    norm_num [List.filter]

end SmartCopy
